import Mathlib

/-!
Shallow embedding of the `wormhole-lite` Solana client crate, together with
proofs about its signature packer, batch planner, verification bundle
builder, VAA serialization, and emitter record layout.

Machine integers are modelled as `Nat` with explicit truncation (`% 256`,
`% 2^64`) exactly where the source performs a cast, fixed-width byte arrays
as `List Nat` together with well-formedness predicates recording the array
lengths that the Rust types enforce, and any failing operation (a returned
`Err`, or a panic from `assert!`/indexing/`expect`/`unwrap`) as the
`Except`/`Option` error case.
-/

/-! ## Byte-level helpers (`to_be_bytes`, `to_le_bytes`, `from_le_bytes`) -/

/-- Big-endian fixed-width encoding of a natural number, `w` bytes wide.
Models Rust's `uN::to_be_bytes`. -/
def be_bytes : Nat → Nat → List Nat
  | 0, _ => []
  | w + 1, v => be_bytes w (v / 256) ++ [v % 256]

/-- Little-endian fixed-width encoding of a natural number, `w` bytes wide.
Models Rust's `uN::to_le_bytes`. -/
def le_bytes : Nat → Nat → List Nat
  | 0, _ => []
  | w + 1, v => v % 256 :: le_bytes w (v / 256)

/-- Little-endian decoding of a byte list. Models `u64::from_le_bytes`
(each entry is reduced mod 256, mirroring the `u8` domain). -/
def from_le_bytes (l : List Nat) : Nat :=
  l.foldr (fun b acc => acc * 256 + b % 256) 0

/-! ## VAA serialization and hashing (`src/solana/src/instructions/post_vaa.rs`) -/

/-- The `PostVAADataIx` structure: VAA header and body fields. Byte-array
and byte-vector fields are byte lists; the integer fields are `u8`/`u16`/
`u32`/`u64` values modelled as `Nat`. -/
structure PostVAADataIx where
  version : Nat
  guardian_set_index : Nat
  timestamp : Nat
  nonce : Nat
  emitter_chain : Nat
  emitter_address : List Nat
  sequence : Nat
  consistency_level : Nat
  payload : List Nat
  deriving DecidableEq

/-- `serialize_vaa`: writes, in order, `timestamp` (4 bytes BE), `nonce`
(4 bytes BE), `emitter_chain` (2 bytes BE), `emitter_address`, `sequence`
(8 bytes BE), `consistency_level` (1 byte) and then the raw `payload`. -/
def serialize_vaa (vaa : PostVAADataIx) : List Nat :=
  be_bytes 4 vaa.timestamp ++ be_bytes 4 vaa.nonce ++ be_bytes 2 vaa.emitter_chain ++
    vaa.emitter_address ++ be_bytes 8 vaa.sequence ++ [vaa.consistency_level % 256] ++
    vaa.payload

/-- `hash_vaa`: Keccak-256 of `serialize_vaa`. The Keccak permutation
itself lives in the external `sha3` crate, so it is a parameter here; the
repository's code is exactly the composition modelled by this function. -/
def hash_vaa (keccak : List Nat → List Nat) (vaa : PostVAADataIx) : List Nat :=
  keccak (serialize_vaa vaa)

/-- Follows the spec's words (not the source): the spec declares the VAA
body to be `(emitter_chain, emitter_address[32], sequence,
consistency_level, payload)` and `serialize` to be big-endian field
concatenation in declared field order with no length prefixes, the
payload appended last. -/
def spec_serialize_body (vaa : PostVAADataIx) : List Nat :=
  be_bytes 2 vaa.emitter_chain ++ vaa.emitter_address ++ be_bytes 8 vaa.sequence ++
    [vaa.consistency_level % 256] ++ vaa.payload

/-! ## Signature packer (`src/solana/src/client/secp256k1_helpers.rs`) -/

/-- `SIGNATURE_SERIALIZED_SIZE` from the Solana SDK: the 64-byte r, s
signature. The recovery id is not part of this constant; the source adds
it as the separate `+ 1` byte when computing `eth_address_offset`. -/
def SIGNATURE_SERIALIZED_SIZE : Nat := 64

/-- `HASHED_PUBKEY_SERIALIZED_SIZE` from the Solana SDK. -/
def HASHED_PUBKEY_SERIALIZED_SIZE : Nat := 20

/-- `SIGNATURE_OFFSETS_SERIALIZED_SIZE` from the Solana SDK: the bincode
size of `SecpSignatureOffsets` (2+1+2+1+2+2+1 bytes). -/
def SIGNATURE_OFFSETS_SERIALIZED_SIZE : Nat := 11

/-- Maximum value of a `usize` (64-bit target). -/
def USIZE_MAX : Nat := 2 ^ 64 - 1

/-- `usize::checked_add`. -/
def usize_checked_add (a b : Nat) : Option Nat :=
  if a + b ≤ USIZE_MAX then some (a + b) else none

/-- `u16::try_from` on a `usize`: fails when the value exceeds 65535. -/
def u16_try_from (n : Nat) : Except String Nat :=
  if n ≤ 65535 then .ok n else .error "out of range integral type conversion"

/-- A `SecpSignature` tuple. The Rust field types are `[u8; 64]`, `u8`,
`[u8; 20]` and `[u8; 32]`; the array lengths are recorded by
`SecpSignature.WF`. -/
structure SecpSignature where
  signature : List Nat
  recovery_id : Nat
  eth_address : List Nat
  message : List Nat
  deriving DecidableEq

/-- Array lengths enforced by the Rust field types of `SecpSignature`. -/
def SecpSignature.WF (s : SecpSignature) : Prop :=
  s.signature.length = SIGNATURE_SERIALIZED_SIZE ∧
    s.eth_address.length = HASHED_PUBKEY_SERIALIZED_SIZE ∧ s.message.length = 32

instance (s : SecpSignature) : Decidable s.WF := by
  unfold SecpSignature.WF; infer_instance

/-- The Solana SDK's `SecpSignatureOffsets` record. -/
structure SecpSignatureOffsets where
  signature_offset : Nat
  signature_instruction_index : Nat
  eth_address_offset : Nat
  eth_address_instruction_index : Nat
  message_data_offset : Nat
  message_data_size : Nat
  message_instruction_index : Nat
  deriving DecidableEq

/-- `bincode::serialize` of a `SecpSignatureOffsets` value: fixed-width
little-endian fields in declared order (`u16, u8, u16, u8, u16, u16, u8`). -/
def serialize_offsets (o : SecpSignatureOffsets) : List Nat :=
  le_bytes 2 o.signature_offset ++ [o.signature_instruction_index % 256] ++
    le_bytes 2 o.eth_address_offset ++ [o.eth_address_instruction_index % 256] ++
    le_bytes 2 o.message_data_offset ++ le_bytes 2 o.message_data_size ++
    [o.message_instruction_index % 256]

/-- The 117 bytes one tuple contributes to the signature blob:
signature (64), recovery id (1), attester address (20), message hash (32),
in that order (the four `signature_buffer` pushes in the loop body). -/
def sigRecord (s : SecpSignature) : List Nat :=
  s.signature ++ [s.recovery_id % 256] ++ s.eth_address ++ s.message

/-- Models `Option::expect`: the panic becomes an error result. -/
def expect_some {α : Type} (o : Option α) (msg : String) : Except String α :=
  match o with
  | some v => .ok v
  | none => .error msg

/-- The `for signature_bundle in signatures` loop of
`make_secp256k1_instruction_data`: accumulates the offset records and the
signature blob. `data_start0` is the outer `data_start`; per iteration
the shadowed `data_start` is recomputed from the current blob length.
Overflow-checked additions (`.expect("overflow")`) and `u16::try_from`
failures are the error cases. -/
def packSigLoop (instruction_index : Nat) (data_start0 : Nat) :
    List SecpSignature → List SecpSignatureOffsets → List Nat →
    Except String (List SecpSignatureOffsets × List Nat)
  | [], offs, buf => .ok (offs, buf)
  | s :: rest, offs, buf => do
    let ds ← expect_some (usize_checked_add data_start0 buf.length) "overflow"
    let ea ← expect_some (usize_checked_add ds (SIGNATURE_SERIALIZED_SIZE + 1)) "overflow"
    let md ← expect_some (usize_checked_add ea HASHED_PUBKEY_SERIALIZED_SIZE) "overflow"
    let so ← u16_try_from ds
    let eo ← u16_try_from ea
    let mo ← u16_try_from md
    let ms ← u16_try_from s.message.length
    packSigLoop instruction_index data_start0 rest
      (offs ++ [⟨so, instruction_index, eo, instruction_index, mo, ms, instruction_index⟩])
      (buf ++ sigRecord s)

/-- `make_secp256k1_instruction_data`: asserts at most 255 signatures
(the `assert!` panic is the first error case), then packs the count byte,
the bincode-serialized offset table and the signature blob. -/
def make_secp256k1_instruction_data (signatures : List SecpSignature)
    (instruction_index : Nat) : Except String (List Nat) :=
  if signatures.length ≤ 255 then
    (packSigLoop instruction_index
        (1 + signatures.length * SIGNATURE_OFFSETS_SERIALIZED_SIZE) signatures [] []).map
      (fun r => [signatures.length % 256] ++ (r.1.map serialize_offsets).flatten ++ r.2)
  else .error "assertion failed: signatures.len() <= u8::MAX"

/-! ## Batch planner and verification bundle builder
(`src/solana/src/client/vaa_verification_bundle.rs`) -/

/-- `BATCH_SIZE`: number of signatures permitted in a single verification
batch. -/
def BATCH_SIZE : Nat := 7

/-- `MAX_LEN_GUARDIAN_KEYS` from
`src/solana/src/instructions/verify_signature.rs`. -/
def MAX_LEN_GUARDIAN_KEYS : Nat := 19

/-- `get_batches`: the source computes
`(signature_length as f64 / BATCH_SIZE as f64).ceil() as usize`; the
`f64` computation returns exactly the ceiling of `n / 7` for every value
the conversion represents exactly (all `n < 2^53`), embedded here as
ceiling division on `Nat`. -/
def get_batches (signature_length : Nat) : Nat :=
  (signature_length + BATCH_SIZE - 1) / BATCH_SIZE

/-- `SignatureBatchParameters`: start and end indices of one batch.
(The source's field `end` is a Lean keyword, rendered here as `stop`.) -/
structure SignatureBatchParameters where
  start : Nat
  stop : Nat
  deriving DecidableEq

/-- `SignatureBatchParameters::new`. -/
def SignatureBatchParameters.new (loop_iteration signature_length : Nat) :
    SignatureBatchParameters :=
  ⟨loop_iteration * BATCH_SIZE, min signature_length ((loop_iteration + 1) * BATCH_SIZE)⟩

/-- One guardian signature from the parsed VAA header, with the
`guardian_set_index` field and the `raw_sig()` / `recovery_id()`
accessors of the external explorer type modelled as input data. -/
structure GuardianSignature where
  guardian_set_index : Nat
  raw_sig : List Nat
  recovery_id : Nat
  deriving DecidableEq

/-- The two instruction shapes the bundle builder emits. The secp256k1
instruction carries its packed byte data; the wormhole verify-signatures
instruction is kept at the constructor level (its account list and borsh
encoding live in external crates), carrying the fields the source passes
to `create_verify_signature_ix`. -/
inductive Instruction where
  | secp256k1 (data : List Nat) : Instruction
  | verifySignatures (payer : Nat) (guardian_set_index : Nat)
      (signature_account : Nat) (signers : List Int) : Instruction
  deriving DecidableEq

/-- `Transaction::new_with_payer(&[..], Some(&payer))`. -/
structure Transaction where
  instructions : List Instruction
  payer : Option Nat
  deriving DecidableEq

instance : Inhabited Transaction := ⟨⟨[], none⟩⟩

/-- The parsed VAA, as consumed by the bundle builder:
`deser_vaa.header.signatures`, `deser_vaa.header.guardian_set_index` and
`deser_vaa.body.digest()` (the digest computation lives in the external
wormhole SDK and is consumed as data). -/
structure DeserVaa where
  signatures : List GuardianSignature
  guardian_set_index : Nat
  digest : List Nat
  deriving DecidableEq

/-- The inner `for j in 0..(end - start)` loop of
`create_vaa_verification_instructions`, processing one batch: writes the
intra-batch slot `j` into `signature_status` at the signature's guardian
index (`signature_status[idx] = j as i8`, an out-of-bounds panic when
`idx ≥ 19`), consumes the guardian key by `mem::take`
(`guardian_set.keys[idx]`, an out-of-bounds panic when `idx` exceeds the
key list), and pushes the corresponding `SecpSignature`. The write-only
`signatures` and `guardian_keys` vectors of the source are omitted; the
taken key is replaced by the all-zero default. -/
def processBatchSigs (hash : List Nat) :
    List GuardianSignature → Nat → List Int → List (List Nat) → List SecpSignature →
    Except String (List Int × List (List Nat) × List SecpSignature)
  | [], _, status, keys, secp => .ok (status, keys, secp)
  | g :: rest, j, status, keys, secp =>
    if g.guardian_set_index < status.length then
      if g.guardian_set_index < keys.length then
        processBatchSigs hash rest (j + 1)
          (status.set g.guardian_set_index (Int.ofNat j))
          (keys.set g.guardian_set_index (List.replicate 20 0))
          (secp ++ [{ signature := g.raw_sig, recovery_id := g.recovery_id,
                      eth_address := keys.getD g.guardian_set_index [],
                      message := hash }])
      else .error "index out of bounds: guardian set keys"
    else .error "index out of bounds: signature status"

/-- The signatures of batch `i`: since `end = min(len, (i+1)*7) ≤ len`,
the source's indexing `signatures[j + start]` for `j < end - start`
enumerates exactly this contiguous slice. -/
def batchSlice (sigs : List GuardianSignature) (i : Nat) : List GuardianSignature :=
  (sigs.drop (SignatureBatchParameters.new i sigs.length).start).take
    ((SignatureBatchParameters.new i sigs.length).stop
      - (SignatureBatchParameters.new i sigs.length).start)

/-- The outer `for i in 0..batches` loop of
`create_vaa_verification_instructions`: per batch, process the batch's
signatures, pack them with instruction index 0, build the
verify-signatures instruction carrying the batch's `signature_status`,
and append a two-instruction transaction. Errors (`?`) abort the whole
loop; the guardian key list threads through because `mem::take` mutates
it. -/
def buildBatches (payer wormhole_signature_account gs_index : Nat) (hash : List Nat)
    (sigs : List GuardianSignature) :
    Nat → Nat → List (List Nat) → Except String (List Transaction × List (List Nat))
  | _, 0, keys => .ok ([], keys)
  | i, count + 1, keys =>
    match processBatchSigs hash (batchSlice sigs i) 0
        (List.replicate MAX_LEN_GUARDIAN_KEYS (-1 : Int)) keys [] with
    | .error e => .error e
    | .ok (status, keys2, secp) =>
      match make_secp256k1_instruction_data secp 0 with
      | .error e => .error e
      | .ok data =>
        match buildBatches payer wormhole_signature_account gs_index hash sigs
            (i + 1) count keys2 with
        | .error e => .error e
        | .ok (txs, keys3) =>
          .ok ({ instructions := [Instruction.secp256k1 data,
                   Instruction.verifySignatures payer gs_index
                     wormhole_signature_account status],
                 payer := some payer } :: txs, keys3)

/-- `create_vaa_verification_instructions`, with the external effects
(VAA deserialization, PDA derivation, RPC fetch of the guardian set
account) consumed as inputs: the parsed VAA and the fetched guardian key
list. Returns the transaction list of the `VaaSignatureVerificationBundle`. -/
def create_vaa_verification_instructions (payer wormhole_signature_account : Nat)
    (guardian_keys : List (List Nat)) (vaa : DeserVaa) :
    Except String (List Transaction) :=
  match buildBatches payer wormhole_signature_account vaa.guardian_set_index vaa.digest
      vaa.signatures 0 (get_batches vaa.signatures.length) guardian_keys with
  | .error e => .error e
  | .ok (txs, _) => .ok txs

theorem be_bytes_length (w v : Nat) : (be_bytes w v).length = w := by
  induction w generalizing v with
  | zero => rfl
  | succ w ih => simp [be_bytes, ih]

theorem le_bytes_length (w v : Nat) : (le_bytes w v).length = w := by
  induction w generalizing v with
  | zero => rfl
  | succ w ih => simp [le_bytes, ih]

theorem from_le_bytes_le_bytes (w v : Nat) :
    from_le_bytes (le_bytes w v) = v % 256 ^ w := by
  induction w generalizing v with
  | zero => simp [le_bytes, from_le_bytes, Nat.mod_one]
  | succ w ih =>
    have h : from_le_bytes (le_bytes w (v / 256)) = (v / 256) % 256 ^ w := ih (v / 256)
    simp only [le_bytes, from_le_bytes, List.foldr_cons] at *
    rw [h, pow_succ, mul_comm (256 ^ w) 256, Nat.mod_mul]
    omega

/-- Reading the `n`-th element of an append, when the index falls in the
right-hand list. -/
theorem getD_append_right_of_le {α : Type} (l₁ l₂ : List α) (n : Nat) (d : α)
    (h : l₁.length ≤ n) : (l₁ ++ l₂).getD n d = l₂.getD (n - l₁.length) d := by
  induction l₁ generalizing n with
  | nil => simp
  | cons a l ih =>
    cases n with
    | zero => simp at h
    | succ n =>
      simp only [List.cons_append, List.getD_cons_succ, List.length_cons]
      rw [ih n (by simpa using h)]
      simp [Nat.succ_sub_succ]

/-- Taking exactly the left list of an append. -/
theorem take_append_length {α : Type} (l₁ l₂ : List α) (n : Nat) (h : l₁.length = n) :
    (l₁ ++ l₂).take n = l₁ := by
  subst h
  simp

/-- Dropping past the left list of an append. -/
theorem drop_append_of_le {α : Type} (l₁ l₂ : List α) (n : Nat) (h : l₁.length ≤ n) :
    (l₁ ++ l₂).drop n = l₂.drop (n - l₁.length) := by
  induction l₁ generalizing n with
  | nil => simp
  | cons a l ih =>
    cases n with
    | zero => simp at h
    | succ n =>
      simp only [List.cons_append, List.drop_succ_cons, List.length_cons]
      rw [ih n (by simpa using h)]
      simp [Nat.succ_sub_succ]

/-! ## Emitter record (`src/solana/src/state/emitter.rs`) -/

/-- Maximum value of a `u64`. -/
def U64_MAX : Nat := 2 ^ 64 - 1

/-- `u64::checked_add`. -/
def u64_checked_add (a b : Nat) : Option Nat :=
  if a + b ≤ U64_MAX then some (a + b) else none

/-- The `Emitter` account record. The `owner` field is a `Pubkey`
(32 bytes) and `padding` a `[u8; 32]`, both modelled as byte lists whose
lengths are recorded by `Emitter.WF`. -/
structure Emitter where
  owner : List Nat
  nonce : Nat
  next_publishable_nonce : Nat
  padding : List Nat
  deriving DecidableEq, Repr

/-- Well-formedness corresponding to the Rust field types: `owner : Pubkey`
(32 bytes), `nonce : u8`, `next_publishable_nonce : u64`,
`padding : [u8; 32]`. -/
def Emitter.WF (e : Emitter) : Prop :=
  e.owner.length = 32 ∧ e.nonce < 256 ∧ e.next_publishable_nonce < 2 ^ 64 ∧
    e.padding.length = 32

instance (e : Emitter) : Decidable e.WF := by
  unfold Emitter.WF; infer_instance

/-- `Emitter::pack_into_slice`: writes `owner` (32 bytes), the derivation
nonce (1 byte), `next_publishable_nonce` (8 bytes little-endian) and
`padding` (32 bytes) into the 73-byte destination, in that order. -/
def Emitter.pack_into_slice (e : Emitter) : List Nat :=
  e.owner ++ [e.nonce % 256] ++ le_bytes 8 e.next_publishable_nonce ++ e.padding

/-- `Emitter::unpack_from_slice`: splits the source into the
`32 / 1 / 8 / 32`-byte fields (`array_refs![src, 32, 1, 8, 32]`). -/
def Emitter.unpack_from_slice (src : List Nat) : Emitter where
  owner := src.take 32
  nonce := src.getD 32 0
  next_publishable_nonce := from_le_bytes ((src.drop 33).take 8)
  padding := (src.drop 41).take 32

/-- The SDK's `Pack::unpack_unchecked` wrapper around `unpack_from_slice`:
rejects any buffer whose length differs from `Emitter::LEN = 73` with
`ProgramError::InvalidAccountData`. (The SDK's `Pack::unpack` additionally
rejects records whose `owner` is the all-zero key, an *initialization*
gate layered on top of the layout decode modelled here.) -/
def Emitter.unpack_unchecked (src : List Nat) : Except String Emitter :=
  if src.length = 73 then .ok (Emitter.unpack_from_slice src)
  else .error "InvalidAccountData"

/-- `Emitter::slice_next_publishable_nonce`: zero-copy read of bytes
`33..41` as a little-endian `u64`. -/
def Emitter.slice_next_publishable_nonce (input : List Nat) : Nat :=
  from_le_bytes ((input.drop 33).take 8)

/-- `Emitter::increment_publishable_nonce`:
`self.next_publishable_nonce.checked_add(1).unwrap()`; the `unwrap` panic
on overflow is modelled as `none`. -/
def Emitter.increment_publishable_nonce (e : Emitter) : Option Emitter :=
  match u64_checked_add e.next_publishable_nonce 1 with
  | some v => some { e with next_publishable_nonce := v }
  | none => none

theorem Emitter.pack_length (e : Emitter) (h : e.WF) :
    e.pack_into_slice.length = 73 := by
  obtain ⟨h1, _, _, h4⟩ := h
  simp [Emitter.pack_into_slice, h1, h4, le_bytes_length]

/-- Decoding an encoded well-formed record recovers every field. -/
theorem emitter_unpack_pack (e : Emitter) (h : e.WF) :
    Emitter.unpack_from_slice e.pack_into_slice = e := by
  obtain ⟨h1, h2, h3, h4⟩ := h
  have hpack : e.pack_into_slice
      = e.owner ++ (e.nonce % 256 :: (le_bytes 8 e.next_publishable_nonce ++ e.padding)) := by
    simp [Emitter.pack_into_slice]
  have howner : e.pack_into_slice.take 32 = e.owner := by
    rw [hpack]; exact take_append_length _ _ _ h1
  have hnonce : e.pack_into_slice.getD 32 0 = e.nonce := by
    rw [hpack, getD_append_right_of_le _ _ _ _ (le_of_eq h1), h1]
    simp [Nat.mod_eq_of_lt h2]
  have hdrop33 : e.pack_into_slice.drop 33
      = le_bytes 8 e.next_publishable_nonce ++ e.padding := by
    rw [hpack, drop_append_of_le _ _ _ (by omega : e.owner.length ≤ 33), h1]
    rfl
  have hnext : from_le_bytes ((e.pack_into_slice.drop 33).take 8)
      = e.next_publishable_nonce := by
    rw [hdrop33, take_append_length _ _ _ (le_bytes_length 8 _), from_le_bytes_le_bytes]
    have h256 : (256 : Nat) ^ 8 = 2 ^ 64 := by norm_num
    rw [h256]; exact Nat.mod_eq_of_lt h3
  have hpad : (e.pack_into_slice.drop 41).take 32 = e.padding := by
    rw [hpack, drop_append_of_le _ _ _ (by omega : e.owner.length ≤ 41), h1]
    show ((e.nonce % 256 :: (le_bytes 8 e.next_publishable_nonce ++ e.padding)).drop 9).take 32
        = e.padding
    rw [List.drop_succ_cons,
      drop_append_of_le _ _ _ (le_of_eq (le_bytes_length 8 _)), le_bytes_length]
    simpa using take_append_length e.padding [] 32 h4
  unfold Emitter.unpack_from_slice
  rw [howner, hnonce, hnext, hpad]

/-- C8: encoding an Emitter record into the fixed 73-byte layout
(owner 32 bytes, derivation nonce 1 byte, `next_publishable_nonce`
8 bytes little-endian, padding 32 bytes) and then decoding yields the
original record; decoding fails with a layout error whenever the buffer
is not exactly 73 bytes long. -/
theorem c8_emitter_record_roundtrip (e : Emitter) (h : e.WF)
    (src : List Nat) (hsrc : src.length ≠ 73) :
    Emitter.unpack_unchecked e.pack_into_slice = .ok e ∧
    ∃ err, Emitter.unpack_unchecked src = .error err := by
  refine ⟨?_, ?_⟩
  · rw [Emitter.unpack_unchecked, if_pos (Emitter.pack_length e h)]
    exact congrArg Except.ok (emitter_unpack_pack e h)
  · exact ⟨"InvalidAccountData", by rw [Emitter.unpack_unchecked, if_neg hsrc]⟩

/-- Witness for `c8_emitter_record_roundtrip`, at the spec's example record
(`next_publishable_nonce = 69`, padding all-ones) and a 3-byte buffer. -/
theorem c8_emitter_record_roundtrip_witness :
    Emitter.unpack_unchecked
        (Emitter.pack_into_slice ⟨List.replicate 32 7, 5, 69, List.replicate 32 1⟩)
      = .ok ⟨List.replicate 32 7, 5, 69, List.replicate 32 1⟩ ∧
    ∃ err, Emitter.unpack_unchecked [0, 1, 2] = .error err :=
  c8_emitter_record_roundtrip ⟨List.replicate 32 7, 5, 69, List.replicate 32 1⟩
    (by decide) [0, 1, 2] (by decide)

/-- C9: incrementing the publishable nonce of an Emitter record whose
counter is below `u64::MAX` succeeds, increases `next_publishable_nonce`
by exactly 1, and leaves `owner`, the derivation `nonce` and `padding`
unchanged. -/
theorem c9_increment_publishable_nonce (e : Emitter)
    (h : e.next_publishable_nonce < U64_MAX) :
    ∃ e2, e.increment_publishable_nonce = some e2 ∧
      e2.next_publishable_nonce = e.next_publishable_nonce + 1 ∧
      e2.owner = e.owner ∧ e2.nonce = e.nonce ∧ e2.padding = e.padding := by
  refine ⟨{ e with next_publishable_nonce := e.next_publishable_nonce + 1 }, ?_, rfl, rfl, rfl, rfl⟩
  rw [Emitter.increment_publishable_nonce, u64_checked_add, if_pos (by omega)]

/-- Witness for `c9_increment_publishable_nonce` at the spec's example
counter value 69 (incrementing to 70). -/
theorem c9_increment_publishable_nonce_witness :
    ∃ e2, Emitter.increment_publishable_nonce ⟨List.replicate 32 7, 5, 69, List.replicate 32 1⟩
        = some e2 ∧
      e2.next_publishable_nonce = 69 + 1 ∧
      e2.owner = List.replicate 32 7 ∧ e2.nonce = 5 ∧ e2.padding = List.replicate 32 1 :=
  c9_increment_publishable_nonce ⟨List.replicate 32 7, 5, 69, List.replicate 32 1⟩ (by decide)

/-- C10: on every 73-byte buffer, the zero-copy reader
`slice_next_publishable_nonce` (bytes 33..41 as little-endian u64) agrees
with fully decoding the buffer and projecting `next_publishable_nonce`;
on the encoding of any well-formed record both readers return the
record's counter. -/
theorem c10_slice_nonce_equiv_unpack (src : List Nat) (h : src.length = 73)
    (e : Emitter) (he : e.WF) :
    (∃ er, Emitter.unpack_unchecked src = .ok er ∧
      Emitter.slice_next_publishable_nonce src = er.next_publishable_nonce) ∧
    Emitter.slice_next_publishable_nonce e.pack_into_slice = e.next_publishable_nonce := by
  refine ⟨⟨Emitter.unpack_from_slice src, ?_, rfl⟩, ?_⟩
  · rw [Emitter.unpack_unchecked, if_pos h]
  · exact congrArg Emitter.next_publishable_nonce (emitter_unpack_pack e he)

/-- Witness for `c10_slice_nonce_equiv_unpack` at a concrete 73-byte
buffer and a concrete well-formed record. -/
theorem c10_slice_nonce_equiv_unpack_witness :
    (∃ er, Emitter.unpack_unchecked (List.replicate 73 2) = .ok er ∧
      Emitter.slice_next_publishable_nonce (List.replicate 73 2)
        = er.next_publishable_nonce) ∧
    Emitter.slice_next_publishable_nonce
        (Emitter.pack_into_slice ⟨List.replicate 32 7, 5, 69, List.replicate 32 1⟩) = 69 :=
  c10_slice_nonce_equiv_unpack (List.replicate 73 2) (by decide)
    ⟨List.replicate 32 7, 5, 69, List.replicate 32 1⟩ (by decide)

/-- Closed form of 2-byte big-endian encoding. -/
theorem be_bytes_two (v : Nat) : be_bytes 2 v = [v / 256 % 256, v % 256] := by
  simp [be_bytes, Nat.div_div_eq_div_mul]

/-- Closed form of 4-byte big-endian encoding. -/
theorem be_bytes_four (v : Nat) :
    be_bytes 4 v = [v / 16777216 % 256, v / 65536 % 256, v / 256 % 256, v % 256] := by
  simp [be_bytes, Nat.div_div_eq_div_mul]

/-- Closed form of 8-byte big-endian encoding. -/
theorem be_bytes_eight (v : Nat) :
    be_bytes 8 v =
      [v / 72057594037927936 % 256, v / 281474976710656 % 256,
       v / 1099511627776 % 256, v / 4294967296 % 256,
       v / 16777216 % 256, v / 65536 % 256, v / 256 % 256, v % 256] := by
  simp [be_bytes, Nat.div_div_eq_div_mul]

/-- C2 counterexample: the hashed serialization produced by the code is
not the spec's `serialize(body)`. At a VAA whose `timestamp` is 1 (all
other fields zero, empty payload), `serialize_vaa` — the exact byte
string the code feeds to Keccak-256 in `hash_vaa` — differs from the
spec's body serialization `(emitter_chain, emitter_address, sequence,
consistency_level, payload)`: the code also writes `timestamp` and
`nonce` first (51 bytes versus the spec's 43). -/
theorem c2_counterexample :
    serialize_vaa ⟨1, 0, 1, 0, 0, List.replicate 32 0, 0, 0, []⟩
        ≠ spec_serialize_body ⟨1, 0, 1, 0, 0, List.replicate 32 0, 0, 0, []⟩ ∧
    hash_vaa (fun l => l) ⟨1, 0, 1, 0, 0, List.replicate 32 0, 0, 0, []⟩
        ≠ spec_serialize_body ⟨1, 0, 1, 0, 0, List.replicate 32 0, 0, 0, []⟩ := by
  constructor <;> decide

/-- C2 amended: `message_hash = keccak256(serialize_vaa(vaa))`, where the
serialization is the big-endian, length-prefix-free concatenation of
`timestamp` (4 bytes), `nonce` (4 bytes), `emitter_chain` (2 bytes),
`emitter_address` (32 bytes), `sequence` (8 bytes), `consistency_level`
(1 byte), and then the payload appended last — i.e. the hashed bytes also
include the `timestamp` and `nonce` fields that the spec lists under the
header. -/
theorem c2_hash_vaa_layout (keccak : List Nat → List Nat) (vaa : PostVAADataIx)
    (h : vaa.emitter_address.length = 32) :
    hash_vaa keccak vaa = keccak (serialize_vaa vaa) ∧
    serialize_vaa vaa =
      [vaa.timestamp / 16777216 % 256, vaa.timestamp / 65536 % 256,
       vaa.timestamp / 256 % 256, vaa.timestamp % 256,
       vaa.nonce / 16777216 % 256, vaa.nonce / 65536 % 256,
       vaa.nonce / 256 % 256, vaa.nonce % 256,
       vaa.emitter_chain / 256 % 256, vaa.emitter_chain % 256] ++
      vaa.emitter_address ++
      [vaa.sequence / 72057594037927936 % 256, vaa.sequence / 281474976710656 % 256,
       vaa.sequence / 1099511627776 % 256, vaa.sequence / 4294967296 % 256,
       vaa.sequence / 16777216 % 256, vaa.sequence / 65536 % 256,
       vaa.sequence / 256 % 256, vaa.sequence % 256] ++
      ([vaa.consistency_level % 256] ++ vaa.payload) ∧
    (serialize_vaa vaa).length = 51 + vaa.payload.length ∧
    (serialize_vaa vaa).drop 51 = vaa.payload := by
  have hsplit : serialize_vaa vaa =
      (be_bytes 4 vaa.timestamp ++ be_bytes 4 vaa.nonce ++ be_bytes 2 vaa.emitter_chain ++
        vaa.emitter_address ++ be_bytes 8 vaa.sequence ++ [vaa.consistency_level % 256]) ++
      vaa.payload := by
    simp [serialize_vaa]
  have hlen : (be_bytes 4 vaa.timestamp ++ be_bytes 4 vaa.nonce ++
      be_bytes 2 vaa.emitter_chain ++ vaa.emitter_address ++ be_bytes 8 vaa.sequence ++
      [vaa.consistency_level % 256]).length = 51 := by
    simp [be_bytes_length, h]
  refine ⟨rfl, ?_, ?_, ?_⟩
  · rw [serialize_vaa, be_bytes_four, be_bytes_four, be_bytes_two, be_bytes_eight]
    simp
  · rw [hsplit, List.length_append, hlen]
  · rw [hsplit, drop_append_of_le _ _ _ (le_of_eq hlen), hlen]
    simp

/-- Witness for `c2_hash_vaa_layout` at a concrete hash function and VAA. -/
theorem c2_hash_vaa_layout_witness :
    hash_vaa (fun _ => [9]) ⟨1, 2, 3, 4, 5, List.replicate 32 6, 7, 8, [3]⟩
        = (fun _ => [9]) (serialize_vaa ⟨1, 2, 3, 4, 5, List.replicate 32 6, 7, 8, [3]⟩) ∧
    serialize_vaa ⟨1, 2, 3, 4, 5, List.replicate 32 6, 7, 8, [3]⟩ =
      [3 / 16777216 % 256, 3 / 65536 % 256, 3 / 256 % 256, 3 % 256,
       4 / 16777216 % 256, 4 / 65536 % 256, 4 / 256 % 256, 4 % 256,
       5 / 256 % 256, 5 % 256] ++
      List.replicate 32 6 ++
      [7 / 72057594037927936 % 256, 7 / 281474976710656 % 256,
       7 / 1099511627776 % 256, 7 / 4294967296 % 256,
       7 / 16777216 % 256, 7 / 65536 % 256, 7 / 256 % 256, 7 % 256] ++
      ([8 % 256] ++ [3]) ∧
    (serialize_vaa ⟨1, 2, 3, 4, 5, List.replicate 32 6, 7, 8, [3]⟩).length = 51 + [3].length ∧
    (serialize_vaa ⟨1, 2, 3, 4, 5, List.replicate 32 6, 7, 8, [3]⟩).drop 51 = [3] :=
  c2_hash_vaa_layout (fun _ => [9]) ⟨1, 2, 3, 4, 5, List.replicate 32 6, 7, 8, [3]⟩ (by decide)

/-- Binding a successful `Except` computation just applies the
continuation. -/
theorem ok_bind {α β : Type} (a : α) (f : α → Except String β) :
    (Except.ok a >>= f) = f a := rfl

theorem expect_some_eq_ok {α : Type} (o : Option α) (msg : String) (v : α)
    (h : o = some v) : expect_some o msg = .ok v := by
  rw [h]; rfl

theorem usize_checked_add_of_le (a b : Nat) (h : a + b ≤ USIZE_MAX) :
    usize_checked_add a b = some (a + b) := by
  rw [usize_checked_add, if_pos h]

theorem u16_try_from_of_le (n : Nat) (h : n ≤ 65535) : u16_try_from n = .ok n := by
  rw [u16_try_from, if_pos h]

/-- Every bincode-serialized offset record is exactly 11 bytes. -/
theorem serialize_offsets_length (o : SecpSignatureOffsets) :
    (serialize_offsets o).length = SIGNATURE_OFFSETS_SERIALIZED_SIZE := by
  simp [serialize_offsets, le_bytes_length, SIGNATURE_OFFSETS_SERIALIZED_SIZE]

/-- Each well-formed tuple contributes exactly 117 bytes to the blob. -/
theorem sigRecord_length (s : SecpSignature) (h : s.WF) : (sigRecord s).length = 117 := by
  obtain ⟨h1, h2, h3⟩ := h
  simp [sigRecord, h1, h2, h3, SIGNATURE_SERIALIZED_SIZE, HASHED_PUBKEY_SERIALIZED_SIZE]

/-- Length of a flattened map whose entries all have length `c`. -/
theorem flatten_map_length_const {α : Type} (f : α → List Nat) (c : Nat) (l : List α)
    (h : ∀ x ∈ l, (f x).length = c) : (l.map f).flatten.length = l.length * c := by
  induction l with
  | nil => simp
  | cons x xs ih =>
    have hx := h x (List.mem_cons_self x xs)
    have hxs := ih (fun y hy => h y (List.mem_cons_of_mem x hy))
    simp only [List.map_cons, List.flatten_cons, List.length_append, List.length_cons, hx, hxs]
    ring

/-- The packing loop succeeds on well-formed tuples whenever the final
message-hash offset cannot exceed the 16-bit range, appending one
11-byte-serializable offset record and one 117-byte blob record per
tuple. -/
theorem packSigLoop_ok (sigs : List SecpSignature) (ii ds : Nat)
    (offs : List SecpSignatureOffsets) (buf : List Nat)
    (hwf : ∀ s ∈ sigs, s.WF)
    (hbound : ds + buf.length + 117 * sigs.length ≤ 65567) :
    ∃ offs2, packSigLoop ii ds sigs offs buf
        = .ok (offs ++ offs2, buf ++ (sigs.map sigRecord).flatten) ∧
      offs2.length = sigs.length := by
  induction sigs generalizing offs buf with
  | nil => exact ⟨[], by simp [packSigLoop], rfl⟩
  | cons s rest ih =>
    have hs : s.WF := hwf s (List.mem_cons_self s rest)
    simp only [List.length_cons] at hbound
    have h1 : expect_some (usize_checked_add ds buf.length) "overflow" = .ok (ds + buf.length) :=
      expect_some_eq_ok _ _ _ (usize_checked_add_of_le _ _
        (by simp only [USIZE_MAX]; omega))
    have h2 : expect_some
        (usize_checked_add (ds + buf.length) (SIGNATURE_SERIALIZED_SIZE + 1)) "overflow"
        = .ok (ds + buf.length + (SIGNATURE_SERIALIZED_SIZE + 1)) :=
      expect_some_eq_ok _ _ _ (usize_checked_add_of_le _ _
        (by simp only [USIZE_MAX, SIGNATURE_SERIALIZED_SIZE]; omega))
    have h3 : expect_some
        (usize_checked_add (ds + buf.length + (SIGNATURE_SERIALIZED_SIZE + 1))
          HASHED_PUBKEY_SERIALIZED_SIZE) "overflow"
        = .ok (ds + buf.length + (SIGNATURE_SERIALIZED_SIZE + 1)
            + HASHED_PUBKEY_SERIALIZED_SIZE) :=
      expect_some_eq_ok _ _ _ (usize_checked_add_of_le _ _
        (by simp only [USIZE_MAX, SIGNATURE_SERIALIZED_SIZE, HASHED_PUBKEY_SERIALIZED_SIZE]
            omega))
    have h4 : u16_try_from (ds + buf.length) = .ok (ds + buf.length) :=
      u16_try_from_of_le _ (by omega)
    have h5 : u16_try_from (ds + buf.length + (SIGNATURE_SERIALIZED_SIZE + 1))
        = .ok (ds + buf.length + (SIGNATURE_SERIALIZED_SIZE + 1)) :=
      u16_try_from_of_le _ (by simp only [SIGNATURE_SERIALIZED_SIZE]; omega)
    have h6 : u16_try_from (ds + buf.length + (SIGNATURE_SERIALIZED_SIZE + 1)
          + HASHED_PUBKEY_SERIALIZED_SIZE)
        = .ok (ds + buf.length + (SIGNATURE_SERIALIZED_SIZE + 1)
          + HASHED_PUBKEY_SERIALIZED_SIZE) :=
      u16_try_from_of_le _
        (by simp only [SIGNATURE_SERIALIZED_SIZE, HASHED_PUBKEY_SERIALIZED_SIZE]; omega)
    have h7 : u16_try_from s.message.length = .ok s.message.length :=
      u16_try_from_of_le _ (by rw [hs.2.2]; omega)
    have hrec : (buf ++ sigRecord s).length = buf.length + 117 := by
      simp [sigRecord_length s hs]
    obtain ⟨offs2, hloop, hlen2⟩ :=
      ih (offs ++ [⟨ds + buf.length, ii, ds + buf.length + (SIGNATURE_SERIALIZED_SIZE + 1), ii,
          ds + buf.length + (SIGNATURE_SERIALIZED_SIZE + 1) + HASHED_PUBKEY_SERIALIZED_SIZE,
          s.message.length, ii⟩])
        (buf ++ sigRecord s)
        (fun y hy => hwf y (List.mem_cons_of_mem s hy)) (by rw [hrec]; omega)
    refine ⟨⟨ds + buf.length, ii, ds + buf.length + (SIGNATURE_SERIALIZED_SIZE + 1), ii,
        ds + buf.length + (SIGNATURE_SERIALIZED_SIZE + 1) + HASHED_PUBKEY_SERIALIZED_SIZE,
        s.message.length, ii⟩ :: offs2, ?_, by simp [hlen2]⟩
    simp only [packSigLoop, h1, h2, h3, h4, h5, h6, h7, ok_bind]
    rw [hloop]
    simp [List.append_assoc]

/-- C1 counterexample: a signature tuple contributes 117 bytes to the
blob, not the claimed 118 — the SDK's `SIGNATURE_SERIALIZED_SIZE` is 64
(r, s only), the recovery id being the separate `+ 1` byte. On a single
well-typed tuple the packed buffer is `1 + 1*11 + 1*117 = 129` bytes,
which differs from the claim's `1 + 1*11 + 1*118 = 130`. -/
theorem c1_counterexample :
    (make_secp256k1_instruction_data
        [⟨List.replicate 64 1, 2, List.replicate 20 3, List.replicate 32 4⟩] 0).map
      List.length = .ok (1 + 1 * SIGNATURE_OFFSETS_SERIALIZED_SIZE + 1 * 117) ∧
    (sigRecord ⟨List.replicate 64 1, 2, List.replicate 20 3, List.replicate 32 4⟩).length
      = 117 ∧
    ¬ ((1 : Nat) + 1 * SIGNATURE_OFFSETS_SERIALIZED_SIZE + 1 * 117
      = 1 + 1 * SIGNATURE_OFFSETS_SERIALIZED_SIZE + 1 * 118) :=
  ⟨rfl, by decide, by decide⟩

/-- C1 amended: for every list of at most 255 well-formed signature
tuples, the packer returns `[count] ++ offset table ++ blob`, where each
tuple contributes exactly the 117 bytes
`signature(64) ++ recovery_id(1) ++ eth_address(20) ++ message(32)`, in
that field order, and the total length is
`1 + count * 11 + count * 117`. -/
theorem c1_packer_record_layout (sigs : List SecpSignature) (ii : Nat)
    (hn : sigs.length ≤ 255) (hwf : ∀ s ∈ sigs, s.WF) :
    ∃ offs : List SecpSignatureOffsets, make_secp256k1_instruction_data sigs ii
        = .ok ([sigs.length] ++ (offs.map serialize_offsets).flatten
            ++ (sigs.map sigRecord).flatten) ∧
      (offs.map serialize_offsets).flatten.length
        = sigs.length * SIGNATURE_OFFSETS_SERIALIZED_SIZE ∧
      (∀ s ∈ sigs, sigRecord s
          = s.signature ++ [s.recovery_id % 256] ++ s.eth_address ++ s.message ∧
        (sigRecord s).length = 117) ∧
      ([sigs.length] ++ (offs.map serialize_offsets).flatten
          ++ (sigs.map sigRecord).flatten).length
        = 1 + sigs.length * SIGNATURE_OFFSETS_SERIALIZED_SIZE + sigs.length * 117 := by
  obtain ⟨offs2, hloop, hlen2⟩ := packSigLoop_ok sigs ii
    (1 + sigs.length * SIGNATURE_OFFSETS_SERIALIZED_SIZE) [] []
    hwf (by simp only [SIGNATURE_OFFSETS_SERIALIZED_SIZE, List.length_nil]; omega)
  have hofflen : (offs2.map serialize_offsets).flatten.length
      = sigs.length * SIGNATURE_OFFSETS_SERIALIZED_SIZE := by
    rw [flatten_map_length_const _ SIGNATURE_OFFSETS_SERIALIZED_SIZE _
      (fun o _ => serialize_offsets_length o), hlen2]
  have hbloblen : (sigs.map sigRecord).flatten.length = sigs.length * 117 :=
    flatten_map_length_const _ 117 _ (fun s hsm => sigRecord_length s (hwf s hsm))
  refine ⟨offs2, ?_, hofflen, fun s hsm => ⟨rfl, sigRecord_length s (hwf s hsm)⟩, ?_⟩
  · rw [make_secp256k1_instruction_data, if_pos hn, hloop]
    simp [Except.map, Nat.mod_eq_of_lt (by omega : sigs.length < 256)]
  · simp only [List.length_append, List.length_cons, List.length_nil, hofflen, hbloblen]

/-- Witness for `c1_packer_record_layout` at a concrete two-tuple input. -/
theorem c1_packer_record_layout_witness :
    ∃ offs : List SecpSignatureOffsets, make_secp256k1_instruction_data
        [⟨List.replicate 64 1, 2, List.replicate 20 3, List.replicate 32 4⟩,
         ⟨List.replicate 64 5, 6, List.replicate 20 7, List.replicate 32 8⟩] 0
        = .ok ([2] ++ (offs.map serialize_offsets).flatten
            ++ ([⟨List.replicate 64 1, 2, List.replicate 20 3, List.replicate 32 4⟩,
                 ⟨List.replicate 64 5, 6, List.replicate 20 7,
                  List.replicate 32 8⟩].map sigRecord).flatten) ∧
      (offs.map serialize_offsets).flatten.length
        = 2 * SIGNATURE_OFFSETS_SERIALIZED_SIZE := by
  obtain ⟨offs, h1, h2, _, _⟩ := c1_packer_record_layout
    [⟨List.replicate 64 1, 2, List.replicate 20 3, List.replicate 32 4⟩,
     ⟨List.replicate 64 5, 6, List.replicate 20 7, List.replicate 32 8⟩] 0
    (by decide) (by decide)
  exact ⟨offs, h1, h2⟩

/-- C4: on well-formed tuples the packer fails exactly when more than 255
entries are supplied (the `assert!`); with at most 255 entries every
cumulative offset fits in 16 bits, so it returns a packed buffer. -/
theorem c4_packer_limits (sigs : List SecpSignature) (ii : Nat)
    (hwf : ∀ s ∈ sigs, s.WF) :
    (255 < sigs.length →
      make_secp256k1_instruction_data sigs ii
        = .error "assertion failed: signatures.len() <= u8::MAX") ∧
    (sigs.length ≤ 255 →
      ∃ out, make_secp256k1_instruction_data sigs ii = .ok out) := by
  constructor
  · intro h
    rw [make_secp256k1_instruction_data, if_neg (by omega)]
  · intro hn
    obtain ⟨offs2, hloop, _⟩ := packSigLoop_ok sigs ii
      (1 + sigs.length * SIGNATURE_OFFSETS_SERIALIZED_SIZE) [] []
      hwf (by simp only [SIGNATURE_OFFSETS_SERIALIZED_SIZE, List.length_nil]; omega)
    exact ⟨_, by rw [make_secp256k1_instruction_data, if_pos hn, hloop]; rfl⟩

/-- Witness for `c4_packer_limits`: packing 256 all-zero tuples fails,
packing 255 succeeds. -/
theorem c4_packer_limits_witness :
    make_secp256k1_instruction_data
        (List.replicate 256 ⟨List.replicate 64 0, 0, List.replicate 20 0, List.replicate 32 0⟩) 0
      = .error "assertion failed: signatures.len() <= u8::MAX" ∧
    ∃ out, make_secp256k1_instruction_data
        (List.replicate 255 ⟨List.replicate 64 0, 0, List.replicate 20 0, List.replicate 32 0⟩) 0
      = .ok out := by
  have hwf : ∀ n : Nat, ∀ s ∈ List.replicate n
      (⟨List.replicate 64 0, 0, List.replicate 20 0, List.replicate 32 0⟩ : SecpSignature),
      s.WF := by
    intro n s hsm
    rw [List.eq_of_mem_replicate hsm]
    decide
  exact ⟨(c4_packer_limits _ 0 (hwf 256)).1 (by rw [List.length_replicate]; omega),
    (c4_packer_limits _ 0 (hwf 255)).2 (by rw [List.length_replicate])⟩

/-- C5: the batch planner produces `ceil(n / 7)` batches (characterized by
`n ≤ 7·b < n + 7`), batch `i` covers `[i·7, min n ((i+1)·7))`, every
position below `n` lies in exactly one batch, every batch position lies
below `n`, and `n = 13` yields the two batches `[0, 7)` and `[7, 13)`. -/
theorem c5_batch_planner_tiles (n : Nat) :
    (n ≤ BATCH_SIZE * get_batches n ∧ BATCH_SIZE * get_batches n < n + BATCH_SIZE) ∧
    (∀ i, (SignatureBatchParameters.new i n).start = i * BATCH_SIZE ∧
      (SignatureBatchParameters.new i n).stop = min n ((i + 1) * BATCH_SIZE)) ∧
    (∀ k, k < n → ∃ i, i < get_batches n ∧
      (SignatureBatchParameters.new i n).start ≤ k ∧
      k < (SignatureBatchParameters.new i n).stop) ∧
    (∀ i k, (SignatureBatchParameters.new i n).start ≤ k →
      k < (SignatureBatchParameters.new i n).stop → k < n) ∧
    (∀ i j k, (SignatureBatchParameters.new i n).start ≤ k →
      k < (SignatureBatchParameters.new i n).stop →
      (SignatureBatchParameters.new j n).start ≤ k →
      k < (SignatureBatchParameters.new j n).stop → i = j) ∧
    (get_batches 13 = 2 ∧ SignatureBatchParameters.new 0 13 = ⟨0, 7⟩ ∧
      SignatureBatchParameters.new 1 13 = ⟨7, 13⟩) := by
  refine ⟨?_, ?_, ?_, ?_, ?_, by decide⟩
  · simp only [get_batches, BATCH_SIZE]
    omega
  · intro i
    simp [SignatureBatchParameters.new]
  · intro k hk
    refine ⟨k / BATCH_SIZE, ?_, ?_, ?_⟩ <;>
      simp only [get_batches, SignatureBatchParameters.new, BATCH_SIZE] <;> omega
  · intro i k h1 h2
    simp only [SignatureBatchParameters.new, BATCH_SIZE] at h1 h2
    omega
  · intro i j k hi1 hi2 hj1 hj2
    simp only [SignatureBatchParameters.new, BATCH_SIZE] at hi1 hi2 hj1 hj2
    omega

/-- Witness for `c5_batch_planner_tiles` at `n = 13`: position 8 lies in
a batch, and the two planned batches are `[0, 7)` and `[7, 13)`. -/
theorem c5_batch_planner_tiles_witness :
    (∃ i, i < get_batches 13 ∧ (SignatureBatchParameters.new i 13).start ≤ 8 ∧
      8 < (SignatureBatchParameters.new i 13).stop) ∧
    get_batches 13 = 2 ∧ SignatureBatchParameters.new 0 13 = ⟨0, 7⟩ ∧
      SignatureBatchParameters.new 1 13 = ⟨7, 13⟩ := by
  obtain ⟨-, -, hcov, -, -, hex⟩ := c5_batch_planner_tiles 13
  exact ⟨hcov 8 (by omega), hex⟩

/-- Reading back the element just written by `List.set`. -/
theorem getD_set_self {α : Type} (l : List α) (i : Nat) (v d : α) (h : i < l.length) :
    (l.set i v).getD i d = v := by
  induction l generalizing i with
  | nil => simp at h
  | cons a t ih =>
    cases i with
    | zero => simp
    | succ i => simpa using ih i (by simpa using h)

/-- `List.set` leaves other positions unchanged. -/
theorem getD_set_ne {α : Type} (l : List α) (i j : Nat) (v d : α) (h : i ≠ j) :
    (l.set i v).getD j d = l.getD j d := by
  induction l generalizing i j with
  | nil => simp
  | cons a t ih =>
    cases i with
    | zero =>
      cases j with
      | zero => exact absurd rfl h
      | succ j => simp
    | succ i =>
      cases j with
      | zero => simp
      | succ j => simpa using ih i j (by omega)

/-- Every in-range read of a replicated list yields the replicated value. -/
theorem getD_replicate {α : Type} (n i : Nat) (a d : α) (h : i < n) :
    (List.replicate n a).getD i d = a := by
  induction n generalizing i with
  | zero => omega
  | succ n ih =>
    cases i with
    | zero => simp [List.replicate]
    | succ i => simpa [List.replicate] using ih i (by omega)

/-- Overwriting a non-matching entry with a matching one raises the
`countP` by exactly one. -/
theorem countP_set_incr (l : List Int) (i : Nat) (v : Int) (p : Int → Bool)
    (hi : i < l.length) (hold : p (l.getD i 0) = false) (hnew : p v = true) :
    (l.set i v).countP p = l.countP p + 1 := by
  induction l generalizing i with
  | nil => simp at hi
  | cons a t ih =>
    cases i with
    | zero =>
      have ha : p a = false := by simpa using hold
      simp [List.countP_cons, ha, hnew]
    | succ i =>
      have := ih i (by simpa using hi) (by simpa using hold)
      simp only [List.set_cons_succ, List.countP_cons, this]
      omega

/-- A successful batch-processing run implies every signature's guardian
index was inside the `signature_status` array. -/
theorem processBatchSigs_ok_idx_lt (hash : List Nat) (bs : List GuardianSignature)
    (j : Nat) (status : List Int) (keys : List (List Nat)) (secp : List SecpSignature)
    (out : List Int × List (List Nat) × List SecpSignature)
    (h : processBatchSigs hash bs j status keys secp = .ok out) :
    ∀ g ∈ bs, g.guardian_set_index < status.length := by
  induction bs generalizing j status keys secp with
  | nil => intro g hg; simp at hg
  | cons g0 rest ih =>
    intro g hg
    simp only [processBatchSigs] at h
    by_cases h1 : g0.guardian_set_index < status.length
    · rw [if_pos h1] at h
      by_cases h2 : g0.guardian_set_index < keys.length
      · rw [if_pos h2] at h
        rcases List.mem_cons.mp hg with rfl | hgr
        · exact h1
        · have := ih _ _ _ _ h g hgr
          simpa [List.length_set] using this
      · rw [if_neg h2] at h; simp at h
    · rw [if_neg h1] at h; simp at h

/-- Full characterization of one batch run on distinct, in-range guardian
indices: it succeeds, packs one `SecpSignature` per input signature in
input order (resolving each guardian key against the key list as read at
that signature's turn, which under distinctness is the original list),
writes slot `j + k` at the `k`-th signature's guardian index, leaves all
other status entries untouched, and raises the non-sentinel count by the
batch size. -/
theorem processBatchSigs_spec (hash : List Nat) (bs : List GuardianSignature)
    (j : Nat) (status : List Int) (keys : List (List Nat)) (secp : List SecpSignature)
    (hlen : ∀ g ∈ bs, g.guardian_set_index < status.length ∧
      g.guardian_set_index < keys.length)
    (hdist : bs.Pairwise (fun a b => a.guardian_set_index ≠ b.guardian_set_index))
    (hclear : ∀ g ∈ bs, status.getD g.guardian_set_index 0 = -1) :
    ∃ statusF keysF,
      processBatchSigs hash bs j status keys secp
        = .ok (statusF, keysF, secp ++ bs.map (fun g =>
            ⟨g.raw_sig, g.recovery_id, keys.getD g.guardian_set_index [], hash⟩)) ∧
      statusF.length = status.length ∧
      (∀ k, (hk : k < bs.length) →
        statusF.getD (bs.get ⟨k, hk⟩).guardian_set_index 0 = Int.ofNat (j + k)) ∧
      (∀ i, (∀ g ∈ bs, g.guardian_set_index ≠ i) → statusF.getD i 0 = status.getD i 0) ∧
      statusF.countP (fun v => v != -1) = status.countP (fun v => v != -1) + bs.length := by
  induction bs generalizing j status keys secp with
  | nil =>
    exact ⟨status, keys, by simp [processBatchSigs], rfl,
      fun k hk => absurd hk (by simp), fun i _ => rfl, by simp⟩
  | cons g0 rest ih =>
    obtain ⟨hs0, hk0⟩ := hlen g0 (List.mem_cons_self g0 rest)
    obtain ⟨hdist0, hdistr⟩ := List.pairwise_cons.mp hdist
    have hlen1 : ∀ g ∈ rest, g.guardian_set_index <
        (status.set g0.guardian_set_index (Int.ofNat j)).length ∧
        g.guardian_set_index <
        (keys.set g0.guardian_set_index (List.replicate 20 0)).length := by
      intro g hg
      obtain ⟨a, b⟩ := hlen g (List.mem_cons_of_mem _ hg)
      exact ⟨by simpa [List.length_set] using a, by simpa [List.length_set] using b⟩
    have hclear1 : ∀ g ∈ rest,
        (status.set g0.guardian_set_index (Int.ofNat j)).getD g.guardian_set_index 0
          = -1 := by
      intro g hg
      rw [getD_set_ne _ _ _ _ _ (hdist0 g hg)]
      exact hclear g (List.mem_cons_of_mem _ hg)
    obtain ⟨statusF, keysF, hrec, hlenF, hposF, hframeF, hcountF⟩ :=
      ih (j + 1) (status.set g0.guardian_set_index (Int.ofNat j))
        (keys.set g0.guardian_set_index (List.replicate 20 0))
        (secp ++ [⟨g0.raw_sig, g0.recovery_id, keys.getD g0.guardian_set_index [], hash⟩])
        hlen1 hdistr hclear1
    refine ⟨statusF, keysF, ?_, ?_, ?_, ?_, ?_⟩
    · simp only [processBatchSigs, if_pos hs0, if_pos hk0]
      rw [hrec]
      have hmap : rest.map (fun g => (⟨g.raw_sig, g.recovery_id,
            (keys.set g0.guardian_set_index (List.replicate 20 0)).getD
              g.guardian_set_index [], hash⟩ : SecpSignature))
          = rest.map (fun g => ⟨g.raw_sig, g.recovery_id,
            keys.getD g.guardian_set_index [], hash⟩) :=
        List.map_congr_left (fun g hg => by
          rw [getD_set_ne _ _ _ _ _ (hdist0 g hg)])
      rw [hmap]
      simp
    · rw [hlenF, List.length_set]
    · intro k hk
      cases k with
      | zero =>
        have hne : ∀ g ∈ rest, g.guardian_set_index ≠ g0.guardian_set_index :=
          fun g hg he => (hdist0 g hg) he.symm
        have hfr := hframeF g0.guardian_set_index hne
        rw [getD_set_self _ _ _ _ hs0] at hfr
        simpa using hfr
      | succ k =>
        have hp := hposF k (by simpa using hk)
        simpa [show j + 1 + k = j + (k + 1) from by omega] using hp
    · intro i hni
      rw [hframeF i (fun g hg => hni g (List.mem_cons_of_mem _ hg)),
        getD_set_ne _ _ _ _ _ (hni g0 (List.mem_cons_self g0 rest))]
    · rw [hcountF, countP_set_incr _ _ _ _ hs0
        (by rw [hclear g0 (List.mem_cons_self g0 rest)]; rfl)
        (by simp)]
      simp only [List.length_cons]
      omega

/-- C6: for a batch whose signatures carry distinct guardian indices
below 19 (and a guardian key list long enough to index), the batch run
succeeds; the 19-entry SignerSlotMap has exactly as many non-sentinel
(`≠ -1`) entries as the batch has signatures; every non-sentinel value is
non-negative, below 7, unique, and equals the position of the uniquely
corresponding signature in the batch's packed `SecpSignature` list, which
itself lists the batch's signatures in order. -/
theorem c6_signer_slot_map (hash : List Nat) (bs : List GuardianSignature)
    (keys : List (List Nat))
    (hlen7 : bs.length ≤ BATCH_SIZE)
    (hidx : ∀ g ∈ bs, g.guardian_set_index < MAX_LEN_GUARDIAN_KEYS)
    (hkeys : ∀ g ∈ bs, g.guardian_set_index < keys.length)
    (hdist : bs.Pairwise (fun a b => a.guardian_set_index ≠ b.guardian_set_index)) :
    ∃ statusF keysF,
      processBatchSigs hash bs 0 (List.replicate MAX_LEN_GUARDIAN_KEYS (-1 : Int)) keys []
        = .ok (statusF, keysF, bs.map (fun g =>
            ⟨g.raw_sig, g.recovery_id, keys.getD g.guardian_set_index [], hash⟩)) ∧
      statusF.length = MAX_LEN_GUARDIAN_KEYS ∧
      statusF.countP (fun v => v != -1) = bs.length ∧
      (∀ k, (hk : k < bs.length) →
        statusF.getD (bs.get ⟨k, hk⟩).guardian_set_index 0 = Int.ofNat k) ∧
      (∀ i, i < MAX_LEN_GUARDIAN_KEYS → statusF.getD i 0 ≠ -1 →
        0 ≤ statusF.getD i 0 ∧ statusF.getD i 0 < (BATCH_SIZE : Int) ∧
        ∃ k, ∃ hk : k < bs.length,
          (bs.get ⟨k, hk⟩).guardian_set_index = i ∧ statusF.getD i 0 = Int.ofNat k) ∧
      (∀ i1 i2, i1 < MAX_LEN_GUARDIAN_KEYS → i2 < MAX_LEN_GUARDIAN_KEYS →
        statusF.getD i1 0 ≠ -1 → statusF.getD i1 0 = statusF.getD i2 0 → i1 = i2) := by
  obtain ⟨sF, kF, hrec, hlen, hpos, hframe, hcount⟩ :=
    processBatchSigs_spec hash bs 0 (List.replicate MAX_LEN_GUARDIAN_KEYS (-1)) keys []
      (fun g hg => ⟨by simpa [List.length_replicate] using hidx g hg, hkeys g hg⟩)
      hdist
      (fun g hg => getD_replicate _ _ _ _ (hidx g hg))
  have hmem : ∀ i, i < MAX_LEN_GUARDIAN_KEYS → sF.getD i 0 ≠ -1 →
      ∃ k, ∃ hk : k < bs.length,
        (bs.get ⟨k, hk⟩).guardian_set_index = i ∧ sF.getD i 0 = Int.ofNat k := by
    intro i hi hne
    by_cases hex : ∃ g ∈ bs, g.guardian_set_index = i
    · obtain ⟨g, hg, hgi⟩ := hex
      obtain ⟨⟨k, hk⟩, hget⟩ := List.mem_iff_get.mp hg
      refine ⟨k, hk, by rw [hget, hgi], ?_⟩
      have hp := hpos k hk
      rw [hget, hgi] at hp
      simpa using hp
    · exfalso
      apply hne
      have hni : ∀ g ∈ bs, g.guardian_set_index ≠ i := by
        intro g hg he; exact hex ⟨g, hg, he⟩
      rw [hframe i hni, getD_replicate _ _ _ _ hi]
  refine ⟨sF, kF, by simpa using hrec, by simpa [List.length_replicate] using hlen,
    ?_, ?_, ?_, ?_⟩
  · have h0 : (List.replicate MAX_LEN_GUARDIAN_KEYS (-1 : Int)).countP
        (fun v => v != -1) = 0 := by decide
    rw [hcount, h0]
    omega
  · intro k hk
    simpa using hpos k hk
  · intro i hi hne
    obtain ⟨k, hk, hgi, hval⟩ := hmem i hi hne
    refine ⟨by rw [hval]; exact Int.ofNat_nonneg k, ?_, k, hk, hgi, hval⟩
    rw [hval]
    have hk7 : k < BATCH_SIZE := by omega
    exact Int.ofNat_lt.mpr hk7
  · intro i1 i2 h1 h2 hne heq
    obtain ⟨k1, hk1, hgi1, hv1⟩ := hmem i1 h1 hne
    have hne2 : sF.getD i2 0 ≠ -1 := by rw [← heq]; exact hne
    obtain ⟨k2, hk2, hgi2, hv2⟩ := hmem i2 h2 hne2
    have hkk : k1 = k2 := Int.ofNat.inj (by rw [← hv1, ← hv2]; exact heq)
    subst hkk
    rw [← hgi1, ← hgi2]

/-- Witness for `c6_signer_slot_map` at a concrete 2-signature batch with
guardian indices 3 and 6. -/
theorem c6_signer_slot_map_witness :
    ∃ statusF keysF,
      processBatchSigs [5] [⟨3, [1], 0⟩, ⟨6, [2], 1⟩] 0
          (List.replicate MAX_LEN_GUARDIAN_KEYS (-1 : Int)) (List.replicate 19 [9]) []
        = .ok (statusF, keysF, [⟨[1], 0, [9], [5]⟩, ⟨[2], 1, [9], [5]⟩]) ∧
      statusF.length = MAX_LEN_GUARDIAN_KEYS ∧
      statusF.countP (fun v => v != -1) = 2 := by
  obtain ⟨sF, kF, h1, h2, h3, -, -, -⟩ := c6_signer_slot_map [5]
    [⟨3, [1], 0⟩, ⟨6, [2], 1⟩] (List.replicate 19 [9])
    (by decide) (by decide) (by decide) (by decide)
  have hm : ([⟨3, [1], 0⟩, ⟨6, [2], 1⟩] : List GuardianSignature).map (fun g =>
      (⟨g.raw_sig, g.recovery_id, (List.replicate 19 [9]).getD g.guardian_set_index [],
        [5]⟩ : SecpSignature)) = [⟨[1], 0, [9], [5]⟩, ⟨[2], 1, [9], [5]⟩] := by decide
  exact ⟨sF, kF, hm ▸ h1, h2, h3⟩

/-- A successful run of the outer batch loop returns one transaction per
remaining batch, in batch order; the `m`-th transaction is exactly the
pair of the secp256k1 instruction packed (at slot index 0) from batch
`i + m`'s signatures and the verify-signatures instruction carrying that
batch's status array. -/
theorem buildBatches_ok (payer acct gsX : Nat) (hash : List Nat)
    (sigs : List GuardianSignature) (c : Nat) :
    ∀ (i : Nat) (keys : List (List Nat)) (txs : List Transaction)
      (keysF : List (List Nat)),
      buildBatches payer acct gsX hash sigs i c keys = .ok (txs, keysF) →
      txs.length = c ∧
      ∀ m, m < c → ∃ ks status ks2 secp data,
        processBatchSigs hash (batchSlice sigs (i + m)) 0
            (List.replicate MAX_LEN_GUARDIAN_KEYS (-1 : Int)) ks [] = .ok (status, ks2, secp) ∧
        make_secp256k1_instruction_data secp 0 = .ok data ∧
        txs.getD m default = ⟨[Instruction.secp256k1 data,
          Instruction.verifySignatures payer gsX acct status], some payer⟩ := by
  induction c with
  | zero =>
    intro i keys txs keysF h
    simp only [buildBatches] at h
    obtain ⟨h1, -⟩ : [] = txs ∧ keys = keysF := by simpa using h
    subst h1
    exact ⟨rfl, fun m hm => absurd hm (by omega)⟩
  | succ c ih =>
    intro i keys txs keysF h
    simp only [buildBatches] at h
    split at h
    · exact absurd h (by simp)
    · rename_i status keys2 secp hp
      split at h
      · exact absurd h (by simp)
      · rename_i data hd
        split at h
        · exact absurd h (by simp)
        · rename_i txs2 keys3 hb
          obtain ⟨h1, -⟩ : (⟨[Instruction.secp256k1 data,
              Instruction.verifySignatures payer gsX acct status],
              some payer⟩ : Transaction) :: txs2 = txs ∧ keys3 = keysF := by
            simpa using h
          obtain ⟨ihlen, ihall⟩ := ih (i + 1) keys2 txs2 keys3 hb
          subst h1
          refine ⟨by simp [ihlen], ?_⟩
          intro m hm
          cases m with
          | zero =>
            exact ⟨keys, status, keys2, secp, data, by simpa using hp, hd, by simp⟩
          | succ m =>
            obtain ⟨ks, status2, ks2, secp2, data2, hps2, hd2, htx2⟩ :=
              ihall m (by omega)
            refine ⟨ks, status2, ks2, secp2, data2, ?_, hd2, ?_⟩
            · rw [show i + (m + 1) = i + 1 + m from by omega]
              exact hps2
            · simpa using htx2

/-- Every signature of the input list belongs to the batch slice that the
planner assigns to its position. -/
theorem get_mem_batchSlice (sigs : List GuardianSignature) (k : Nat)
    (hk : k < sigs.length) :
    sigs.get ⟨k, hk⟩ ∈ batchSlice sigs (k / BATCH_SIZE) := by
  have ha : (SignatureBatchParameters.new (k / BATCH_SIZE) sigs.length).start
      = (k / BATCH_SIZE) * BATCH_SIZE := rfl
  have hb : (SignatureBatchParameters.new (k / BATCH_SIZE) sigs.length).stop
      = min sigs.length ((k / BATCH_SIZE + 1) * BATCH_SIZE) := rfl
  simp only [batchSlice, ha, hb]
  have hidx : (k / BATCH_SIZE) * BATCH_SIZE + (k - (k / BATCH_SIZE) * BATCH_SIZE) = k := by
    simp only [BATCH_SIZE]
    omega
  have hblen : k - (k / BATCH_SIZE) * BATCH_SIZE <
      ((sigs.drop ((k / BATCH_SIZE) * BATCH_SIZE)).take
        (min sigs.length ((k / BATCH_SIZE + 1) * BATCH_SIZE)
          - (k / BATCH_SIZE) * BATCH_SIZE)).length := by
    simp only [List.length_take, List.length_drop, BATCH_SIZE]
    omega
  have hget : ((sigs.drop ((k / BATCH_SIZE) * BATCH_SIZE)).take
        (min sigs.length ((k / BATCH_SIZE + 1) * BATCH_SIZE)
          - (k / BATCH_SIZE) * BATCH_SIZE)).get
        ⟨k - (k / BATCH_SIZE) * BATCH_SIZE, hblen⟩ = sigs.get ⟨k, hk⟩ := by
    simp only [List.get_eq_getElem, List.getElem_take, List.getElem_drop, hidx]
  rw [← hget]
  exact List.get_mem _ _ _

/-- C7: every successful build returns exactly one transaction per
planned batch, in planned batch order; transaction `m` consists of
exactly two instructions: first the secp256k1 instruction whose data was
packed (with instruction slot index 0) from batch `m`'s `SecpSignature`
list, then the verify-signatures instruction carrying the SignerSlotMap
built for batch `m`. -/
theorem c7_bundle_per_batch (payer acct : Nat) (guardian_keys : List (List Nat))
    (vaa : DeserVaa) (txs : List Transaction)
    (h : create_vaa_verification_instructions payer acct guardian_keys vaa = .ok txs) :
    txs.length = get_batches vaa.signatures.length ∧
    ∀ m, m < txs.length → ∃ ks status ks2 secp data,
      processBatchSigs vaa.digest (batchSlice vaa.signatures m) 0
          (List.replicate MAX_LEN_GUARDIAN_KEYS (-1 : Int)) ks [] = .ok (status, ks2, secp) ∧
      make_secp256k1_instruction_data secp 0 = .ok data ∧
      txs.getD m default = ⟨[Instruction.secp256k1 data,
        Instruction.verifySignatures payer vaa.guardian_set_index acct status],
        some payer⟩ := by
  simp only [create_vaa_verification_instructions] at h
  cases hb : buildBatches payer acct vaa.guardian_set_index vaa.digest vaa.signatures 0
      (get_batches vaa.signatures.length) guardian_keys with
  | error e => rw [hb] at h; simp at h
  | ok r =>
    obtain ⟨txs2, keys3⟩ := r
    rw [hb] at h
    simp only [Except.ok.injEq] at h
    subst h
    obtain ⟨hlen, hall⟩ := buildBatches_ok payer acct vaa.guardian_set_index vaa.digest
      vaa.signatures (get_batches vaa.signatures.length) 0 guardian_keys txs2 keys3 hb
    refine ⟨hlen, ?_⟩
    intro m hm
    obtain ⟨ks, status, ks2, secp, data, hp, hd, htx⟩ := hall m (by omega)
    exact ⟨ks, status, ks2, secp, data, by simpa using hp, hd, htx⟩

/-- Witness for `c7_bundle_per_batch` at a concrete one-signature VAA,
whose build evaluates to a single two-instruction transaction. -/
theorem c7_bundle_per_batch_witness :
    ([(⟨[Instruction.secp256k1 [1, 12, 0, 0, 77, 0, 0, 97, 0, 1, 0, 0, 7, 4, 9, 5],
        Instruction.verifySignatures 1 3 2 ((0 : Int) :: List.replicate 18 (-1))],
        some 1⟩ : Transaction)] : List Transaction).length
      = get_batches ([(⟨0, [7], 4⟩ : GuardianSignature)] : List GuardianSignature).length ∧
    ∃ ks status ks2 secp data,
      processBatchSigs [5] (batchSlice [⟨0, [7], 4⟩] 0) 0
          (List.replicate MAX_LEN_GUARDIAN_KEYS (-1 : Int)) ks [] = .ok (status, ks2, secp) ∧
      make_secp256k1_instruction_data secp 0 = .ok data ∧
      ([(⟨[Instruction.secp256k1 [1, 12, 0, 0, 77, 0, 0, 97, 0, 1, 0, 0, 7, 4, 9, 5],
        Instruction.verifySignatures 1 3 2 ((0 : Int) :: List.replicate 18 (-1))],
        some 1⟩ : Transaction)] : List Transaction).getD 0 default
        = ⟨[Instruction.secp256k1 data,
            Instruction.verifySignatures 1 3 2 status], some 1⟩ := by
  have h := c7_bundle_per_batch 1 2 [[9]] ⟨[⟨0, [7], 4⟩], 3, [5]⟩
    [⟨[Instruction.secp256k1 [1, 12, 0, 0, 77, 0, 0, 97, 0, 1, 0, 0, 7, 4, 9, 5],
      Instruction.verifySignatures 1 3 2 ((0 : Int) :: List.replicate 18 (-1))],
      some 1⟩] (by rfl)
  exact ⟨h.1, h.2 0 (by simp)⟩

/-- C3: whenever some input signature carries a guardian index of 19 or
more, the whole verification-bundle build fails with an error (the
out-of-range write into the 19-entry status array): no bundle is
returned, hence no signature is silently dropped. -/
theorem c3_guardian_index_out_of_range (payer acct : Nat)
    (guardian_keys : List (List Nat)) (vaa : DeserVaa)
    (h : ∃ g ∈ vaa.signatures, MAX_LEN_GUARDIAN_KEYS ≤ g.guardian_set_index) :
    ∃ e, create_vaa_verification_instructions payer acct guardian_keys vaa
      = .error e := by
  cases hres : create_vaa_verification_instructions payer acct guardian_keys vaa with
  | error e => exact ⟨e, rfl⟩
  | ok txs =>
    exfalso
    obtain ⟨g, hg, hbig⟩ := h
    obtain ⟨⟨k, hk⟩, hget⟩ := List.mem_iff_get.mp hg
    have hmlt : k / BATCH_SIZE < get_batches vaa.signatures.length := by
      simp only [get_batches, BATCH_SIZE]
      omega
    simp only [create_vaa_verification_instructions] at hres
    split at hres
    · exact absurd hres (by simp)
    · rename_i txs0 keysF hb
      obtain ⟨hlen, hall⟩ := buildBatches_ok payer acct vaa.guardian_set_index vaa.digest
        vaa.signatures (get_batches vaa.signatures.length) 0 guardian_keys txs0 keysF hb
      obtain ⟨ks, status, ks2, secp, data, hp, hd, htx⟩ := hall (k / BATCH_SIZE) hmlt
      have hin : vaa.signatures.get ⟨k, hk⟩
          ∈ batchSlice vaa.signatures (0 + k / BATCH_SIZE) := by
        simpa using get_mem_batchSlice vaa.signatures k hk
      have hlt := processBatchSigs_ok_idx_lt _ _ _ _ _ _ _ hp _ hin
      rw [hget, List.length_replicate] at hlt
      omega

/-- Witness for `c3_guardian_index_out_of_range`: a single signature with
guardian index 19 makes the build fail. -/
theorem c3_guardian_index_out_of_range_witness :
    ∃ e, create_vaa_verification_instructions 1 2 (List.replicate 19 [9])
      ⟨[⟨19, [7], 4⟩], 3, [5]⟩ = .error e :=
  c3_guardian_index_out_of_range 1 2 (List.replicate 19 [9]) ⟨[⟨19, [7], 4⟩], 3, [5]⟩
    ⟨⟨19, [7], 4⟩, by decide, by decide⟩
